import Mathlib

/-!
Verification of the htmlcleaner HTML sanitization engine.

This development is a shallow embedding of the sanitizer: the node data
model mirrors the tree type of the external HTML library (node type tag,
element name, text data, namespace, attribute list, ordered children),
and each sanitizer function is translated from the source. The external
collaborators that the source treats as trusted black boxes (the HTML
fragment parser, the renderer, the tokenizer, the URL parser and its
string form, and entity decoding) are abstracted as an Externals record;
theorems that depend on a specific behavior of an external collaborator
take that behavior as an explicit hypothesis, discharged on concrete
model instances.
-/

namespace HtmlCleaner

/-- Node types of the external HTML library. -/
inductive NodeType where
  | errorNode | textNode | documentNode | elementNode | commentNode | doctypeNode | rawNode
deriving DecidableEq, Repr

/-- An attribute: namespace, key, and value. -/
structure Attribute where
  namespc : String
  key : String
  val : String
deriving DecidableEq, Repr

mutual
/-- A node of the parsed HTML tree. Element identity (DataAtom) is modelled
as the lowercase element name, with the empty string standing for atom zero
(an unknown name). Parent and sibling links of the source are represented
by the ordered children list. -/
inductive Node where
  | mk (type : NodeType) (dataAtom : String) (data : String) (namespc : String)
       (attr : List Attribute) (children : NodeList)
/-- Ordered list of sibling nodes. -/
inductive NodeList where
  | nil
  | cons (head : Node) (tail : NodeList)
end

mutual
def nodeDecEq : (a b : Node) → Decidable (a = b)
  | .mk t1 da1 d1 ns1 a1 cs1, .mk t2 da2 d2 ns2 a2 cs2 =>
    if h1 : t1 = t2 then
      if h2 : da1 = da2 then
        if h3 : d1 = d2 then
          if h4 : ns1 = ns2 then
            if h5 : a1 = a2 then
              match nodeListDecEq cs1 cs2 with
              | isTrue h6 => isTrue (by subst h1 h2 h3 h4 h5 h6; rfl)
              | isFalse h6 => isFalse (by intro h; cases h; exact h6 rfl)
            else isFalse (by intro h; cases h; exact h5 rfl)
          else isFalse (by intro h; cases h; exact h4 rfl)
        else isFalse (by intro h; cases h; exact h3 rfl)
      else isFalse (by intro h; cases h; exact h2 rfl)
    else isFalse (by intro h; cases h; exact h1 rfl)
def nodeListDecEq : (a b : NodeList) → Decidable (a = b)
  | .nil, .nil => isTrue rfl
  | .nil, .cons _ _ => isFalse (by intro h; cases h)
  | .cons _ _, .nil => isFalse (by intro h; cases h)
  | .cons n1 r1, .cons n2 r2 =>
    match nodeDecEq n1 n2 with
    | isTrue h1 =>
      match nodeListDecEq r1 r2 with
      | isTrue h2 => isTrue (by subst h1 h2; rfl)
      | isFalse h2 => isFalse (by intro h; cases h; exact h2 rfl)
    | isFalse h1 => isFalse (by intro h; cases h; exact h1 rfl)
end

instance : DecidableEq Node := nodeDecEq
instance : DecidableEq NodeList := nodeListDecEq

def Node.type : Node → NodeType
  | .mk t _ _ _ _ _ => t

def Node.dataAtom : Node → String
  | .mk _ da _ _ _ _ => da

def Node.nodeData : Node → String
  | .mk _ _ d _ _ _ => d

def Node.attr : Node → List Attribute
  | .mk _ _ _ _ a _ => a

def Node.children : Node → NodeList
  | .mk _ _ _ _ _ cs => cs

def NodeList.toList : NodeList → List Node
  | .nil => []
  | .cons n rest => n :: rest.toList

def listToNodeList : List Node → NodeList
  | [] => .nil
  | n :: rest => .cons n (listToNodeList rest)

/-- Names interned by the atom table of the external HTML library (the
subset relevant to this development). atomLookup of any other string is
atom zero, modelled as the empty string. -/
def knownAtoms : List String :=
  ["a", "abbr", "address", "alt", "article", "aside", "audio", "b", "big",
   "blockquote", "br", "center", "cite", "code", "controls", "dd", "del",
   "details", "dir", "div", "dl", "dt", "em", "fieldset", "figcaption",
   "figure", "footer", "form", "h1", "h2", "h3", "h4", "h5", "h6", "header",
   "hgroup", "hr", "href", "i", "img", "ins", "kbd", "li", "listing", "menu",
   "nav", "ol", "open", "p", "plaintext", "poster", "pre", "q", "s",
   "section", "small", "span", "src", "strike", "strong", "sub", "summary",
   "sup", "table", "title", "tt", "u", "ul", "video"]

/-- atom.Lookup: returns the interned name, or the empty string (atom zero)
for a name that is not in the table. -/
def atomLookup (s : String) : String :=
  if s ∈ knownAtoms then s else ""

/-- A parsed URL as the sanitizer observes it: its scheme and an opaque
remainder. Parsing and the canonical string form are external. -/
structure URL where
  scheme : String
  rest : String
deriving DecidableEq, Repr

/-- A lexical token of the streaming tokenizer. -/
inductive Token where
  | textTok (raw : String)
  | startTag (raw : String) (name : String)
  | endTag (raw : String) (name : String)
  | selfClosingTag (raw : String) (name : String)
  | commentTok (raw : String)
  | doctypeTok (raw : String)
deriving DecidableEq, Repr

/-- The error value carried by the final ErrorToken of a token stream. -/
inductive TokErr where
  | eof
  | other (msg : String)
deriving DecidableEq, Repr

/-- A complete tokenization of an input string: the tokens before the final
ErrorToken, the error of that final token, and the raw unconsumed bytes at
that point (an unterminated trailing token). -/
structure TokStream where
  toks : List Token
  finalErr : TokErr
  trailingRaw : String

/-- The external collaborators of the sanitizer, as abstract functions:
html.ParseFragment in a div context, html.Render of a single node,
html.UnescapeString, url.Parse, the canonical string form of a url.URL,
and the tokenizer. -/
structure Externals where
  parseFragment : String → List Node
  render1 : Node → String
  unescapeString : String → String
  urlParse : String → Option URL
  urlString : URL → String
  tokenize : String → TokStream

/-- html.EscapeString: replaces each of the five significant characters by
its entity. -/
def escapeChar (c : Char) : String :=
  if c.toNat = 38 then "&amp;"
  else if c.toNat = 39 then "&#39;"
  else if c.toNat = 60 then "&lt;"
  else if c.toNat = 62 then "&gt;"
  else if c.toNat = 34 then "&#34;"
  else String.singleton c

def escapeString (s : String) : String :=
  String.join (s.data.map escapeChar)

/-- The sanitization policy. Maps keyed by atoms are modelled as functions
from interned names; presence of an element (even with an empty attribute
set) makes it legal. -/
structure Config where
  Elem : String → Option (String → Bool)
  Attr : String → Bool
  AllowJavascriptURL : Bool
  EscapeComments : Bool
  WrapText : Bool
  AttrMatch : String → String → Option (String → Bool)
  ValidateURL : Option (URL → Bool)

def defaultElemNil : List String :=
  ["b", "i", "u", "s", "em", "strong", "strike", "big", "small", "sup",
   "sub", "ins", "del", "abbr", "address", "cite", "q", "p", "blockquote",
   "pre", "code", "kbd", "tt", "details", "summary"]

/-- DefaultConfig: links carry href, images src and alt, video src, poster
and controls, audio src and controls; a curated set of formatting elements
with no extra attributes; title allowed globally. -/
def DefaultConfig : Config where
  Elem := fun e =>
    if e = "a" then some (fun a => a = "href")
    else if e = "img" then some (fun a => a = "src" || a = "alt")
    else if e = "video" then some (fun a => a = "src" || a = "poster" || a = "controls")
    else if e = "audio" then some (fun a => a = "src" || a = "controls")
    else if e ∈ defaultElemNil then some (fun _ => false)
    else none
  Attr := fun a => a = "title"
  AllowJavascriptURL := false
  EscapeComments := false
  WrapText := false
  AttrMatch := fun _ _ => none
  ValidateURL := none

/-- DefaultMaxDepth is the default maximum depth of the node trees returned
by Parse. -/
def DefaultMaxDepth : Nat := 100

/-- Constructs a text node. -/
def text (s : String) : Node :=
  .mk .textNode "" s "" [] .nil

/-- The fixed set of accepted URL schemes; the empty scheme is a relative
URL. -/
def allowedURLSchemes (s : String) : Bool :=
  s = "http" || s = "https" || s = "mailto" || s = "data" || s = ""

/-- cleanURL: for a URL-bearing attribute name, parse the value, require an
accepted scheme and the custom predicate, and normalize the value to the
canonical string form. The source mutates attr.Val and returns a Bool;
here the updated attribute is returned, none meaning the attribute is
dropped. -/
def cleanURL (ext : Externals) (c : Config) (a : String) (attr : Attribute) : Option Attribute :=
  if !(a = "href") && !(a = "src") && !(a = "poster") then some attr
  else
    match ext.urlParse attr.val with
    | none => none
    | some u =>
      if !(allowedURLSchemes u.scheme) then none
      else
        match c.ValidateURL with
        | some validate =>
          if validate u then some { attr with val := ext.urlString u } else none
        | none => some { attr with val := ext.urlString u }

/-- One iteration of the attribute-filtering loop of cleanNode: none means
the attribute is dropped (continue), some gives the attribute as appended
(its value possibly normalized by cleanURL). -/
def keepAttr (ext : Externals) (c : Config) (elemAtom : String)
    (allowedAttr : String → Bool) (attr : Attribute) : Option Attribute :=
  if !(attr.namespc = "") || (!(allowedAttr (atomLookup attr.key)) && !(c.Attr (atomLookup attr.key))) then
    none
  else
    match (if c.AllowJavascriptURL then some attr
           else cleanURL ext c (atomLookup attr.key) attr) with
    | none => none
    | some attr2 =>
      match c.AttrMatch elemAtom (atomLookup attr.key) with
      | some re => if re attr2.val then some attr2 else none
      | none => some attr2

/-- The attribute-filtering loop of cleanNode over the attribute list. -/
def cleanAttrList (ext : Externals) (c : Config) (elemAtom : String)
    (allowedAttr : String → Bool) : List Attribute → List Attribute
  | [] => []
  | attr :: rest =>
    match keepAttr ext c elemAtom allowedAttr attr with
    | none => cleanAttrList ext c elemAtom allowedAttr rest
    | some attr2 => attr2 :: cleanAttrList ext c elemAtom allowedAttr rest

mutual
/-- filterNode: text nodes pass through; comment nodes pass through unless
EscapeComments; any other non-element node becomes a text rendering of
itself; element nodes go through cleanNode (inlined here as the element
branch so the mutual recursion is structural; the standalone cleanNode
below is definitionally the element branch). -/
def filterNode (ext : Externals) (c : Config) : Node → Node
  | .mk t da d ns attrs cs =>
    if t = .textNode then .mk t da d ns attrs cs
    else if t = .commentNode && !c.EscapeComments then .mk t da d ns attrs cs
    else if !(t = .elementNode) then text (ext.render1 (.mk t da d ns attrs cs))
    else
      match c.Elem da with
      | some allowedAttr =>
        if da = "img" && !((cleanAttrList ext c da allowedAttr attrs).any
            (fun a => atomLookup a.key = "src")) then
          .mk .textNode "" "" "" [] .nil
        else .mk t da d ns (cleanAttrList ext c da allowedAttr attrs) (cleanChildren ext c cs)
      | none => text (ext.unescapeString (ext.render1 (.mk t da d ns attrs cs)))
/-- cleanChildren: filters each child in order and rebuilds the child
linkage of the result. -/
def cleanChildren (ext : Externals) (c : Config) : NodeList → NodeList
  | .nil => .nil
  | .cons n rest => .cons (filterNode ext c n) (cleanChildren ext c rest)
end

/-- cleanNode: the element branch of the filter, for an element node. -/
def cleanNode (ext : Externals) (c : Config) (n : Node) : Node :=
  match n with
  | .mk t da d ns attrs cs =>
    match c.Elem da with
    | some allowedAttr =>
      if da = "img" && !((cleanAttrList ext c da allowedAttr attrs).any
          (fun a => atomLookup a.key = "src")) then
        .mk .textNode "" "" "" [] .nil
      else .mk t da d ns (cleanAttrList ext c da allowedAttr attrs) (cleanChildren ext c cs)
    | none => text (ext.unescapeString (ext.render1 (.mk t da d ns attrs cs)))

/-! Per-constructor equations for the filter, provable by definitional
unfolding; proofs about the filter go through these. -/

theorem filterNode_text_eq (ext : Externals) (c : Config) (da d ns : String)
    (attrs : List Attribute) (cs : NodeList) :
    filterNode ext c (.mk .textNode da d ns attrs cs) = .mk .textNode da d ns attrs cs := rfl

theorem filterNode_comment_eq {ext : Externals} {c : Config} {da d ns : String}
    {attrs : List Attribute} {cs : NodeList} (hesc : c.EscapeComments = false) :
    filterNode ext c (.mk .commentNode da d ns attrs cs) = .mk .commentNode da d ns attrs cs := by
  rw [filterNode, hesc]
  rfl

theorem filterNode_comment_esc_eq {ext : Externals} {c : Config} {da d ns : String}
    {attrs : List Attribute} {cs : NodeList} (hesc : c.EscapeComments = true) :
    filterNode ext c (.mk .commentNode da d ns attrs cs)
      = text (ext.render1 (.mk .commentNode da d ns attrs cs)) := by
  rw [filterNode, hesc]
  rfl

theorem filterNode_doctype_eq (ext : Externals) (c : Config) (da d ns : String)
    (attrs : List Attribute) (cs : NodeList) :
    filterNode ext c (.mk .doctypeNode da d ns attrs cs)
      = text (ext.render1 (.mk .doctypeNode da d ns attrs cs)) := rfl

theorem filterNode_document_eq (ext : Externals) (c : Config) (da d ns : String)
    (attrs : List Attribute) (cs : NodeList) :
    filterNode ext c (.mk .documentNode da d ns attrs cs)
      = text (ext.render1 (.mk .documentNode da d ns attrs cs)) := rfl

theorem filterNode_error_eq (ext : Externals) (c : Config) (da d ns : String)
    (attrs : List Attribute) (cs : NodeList) :
    filterNode ext c (.mk .errorNode da d ns attrs cs)
      = text (ext.render1 (.mk .errorNode da d ns attrs cs)) := rfl

theorem filterNode_raw_eq (ext : Externals) (c : Config) (da d ns : String)
    (attrs : List Attribute) (cs : NodeList) :
    filterNode ext c (.mk .rawNode da d ns attrs cs)
      = text (ext.render1 (.mk .rawNode da d ns attrs cs)) := rfl

theorem filterNode_element_eq (ext : Externals) (c : Config) (da d ns : String)
    (attrs : List Attribute) (cs : NodeList) :
    filterNode ext c (.mk .elementNode da d ns attrs cs)
      = cleanNode ext c (.mk .elementNode da d ns attrs cs) := rfl

theorem cleanNode_none_eq {ext : Externals} {c : Config} {t : NodeType} {da : String}
    {d ns : String} {attrs : List Attribute} {cs : NodeList} (hE : c.Elem da = none) :
    cleanNode ext c (.mk t da d ns attrs cs)
      = text (ext.unescapeString (ext.render1 (.mk t da d ns attrs cs))) := by
  rw [cleanNode, hE]

theorem cleanNode_some_eq {ext : Externals} {c : Config} {t : NodeType} {da : String}
    {d ns : String} {attrs : List Attribute} {cs : NodeList} {A : String → Bool}
    (hE : c.Elem da = some A) :
    cleanNode ext c (.mk t da d ns attrs cs)
      = if da = "img" && !((cleanAttrList ext c da A attrs).any
            (fun a => atomLookup a.key = "src")) then
          .mk .textNode "" "" "" [] .nil
        else .mk t da d ns (cleanAttrList ext c da A attrs) (cleanChildren ext c cs) := by
  rw [cleanNode, hE]

/-- CleanNode cleans an HTML node using the specified config, or
DefaultConfig if it is none. -/
def CleanNode (ext : Externals) (c : Option Config) (n : Node) : Node :=
  filterNode ext (c.getD DefaultConfig) n

/-- The depth-zero truncation of forceMaxDepth: type forced to Text,
children and attributes dropped, data replaced by the placeholder. -/
def truncateNode : Node → Node
  | .mk _ da _ ns _ _ => .mk .textNode da "[omitted]" ns [] .nil

mutual
/-- forceMaxDepth: truncates a node once its depth budget reaches zero;
non-element nodes are left alone; element children are visited with the
budget decreased by one. -/
def forceMaxDepth (d : Nat) (n : Node) : Node :=
  if d = 0 then truncateNode n
  else
    match n with
    | .mk t da dt ns attrs cs =>
      if !(t = .elementNode) then .mk t da dt ns attrs cs
      else .mk t da dt ns attrs (forceChildren (d - 1) cs)
/-- The child loop of forceMaxDepth: when the budget for the children is
zero, the first child is truncated and its remaining (not-yet-visited)
siblings are removed from the parent. -/
def forceChildren (d : Nat) : NodeList → NodeList
  | .nil => .nil
  | .cons n rest =>
    if d = 0 then .cons (truncateNode n) .nil
    else .cons (forceMaxDepth d n) (forceChildren d rest)
end

/-- ParseDepth: parse a fragment (div context) and, when maxDepth is
positive, bound the depth of each returned tree; maxDepth zero disables
the guard. -/
def ParseDepth (ext : Externals) (fragment : String) (maxDepth : Nat) : List Node :=
  if maxDepth > 0 then (ext.parseFragment fragment).map (forceMaxDepth maxDepth)
  else ext.parseFragment fragment

/-- Parse: ParseDepth with DefaultMaxDepth. -/
def Parse (ext : Externals) (fragment : String) : List Node :=
  ParseDepth ext fragment DefaultMaxDepth

/-- Render: renders each node in order and concatenates. -/
def Render (ext : Externals) : List Node → String
  | [] => ""
  | n :: rest => ext.render1 n ++ Render ext rest

/-- The fixed closed set of block-level element names of the inline-content
wrapping pass. -/
def isBlockElement (a : String) : Bool :=
  a ∈ ["address", "article", "aside", "blockquote", "center", "dd",
       "details", "dir", "div", "dl", "dt", "fieldset", "figcaption",
       "figure", "footer", "form", "h1", "h2", "h3", "h4", "h5", "h6",
       "header", "hgroup", "hr", "li", "listing", "menu", "nav", "ol", "p",
       "plaintext", "pre", "section", "summary", "table", "ul"]

/-- Wraps a dangling li node in a fresh ul element. -/
def wrapUl (n : Node) : Node :=
  .mk .elementNode "ul" "ul" "" [] (.cons n .nil)

/-- The paragraph wrapper element built from the accumulated buffer. -/
def wrapperNode (buf : List Node) : Node :=
  .mk .elementNode "p" "p" "" [] (listToNodeList buf)

/-- appendWrapper: the flushed buffer is rendered and re-parsed with the
depth guard disabled (ParseDepth with maxDepth zero). -/
def flushWrapper (ext : Externals) (buf : List Node) : List Node :=
  ParseDepth ext (ext.render1 (wrapperNode buf)) 0

/-- The WrapText walk over the top-level sequence: block-level elements
flush the open paragraph buffer and pass through; whitespace-only text
nodes pass through when no buffer is open; anything else is appended to
the open buffer. -/
def wrapTextLoop (ext : Externals) : List Node → List Node → Option (List Node) → List Node
  | [], wrapped, none => wrapped
  | [], wrapped, some buf => wrapped ++ flushWrapper ext buf
  | n :: rest, wrapped, buf =>
    if n.type = .elementNode && isBlockElement n.dataAtom then
      wrapTextLoop ext rest
        ((wrapped ++ (match buf with | some b => flushWrapper ext b | none => [])) ++ [n]) none
    else if (match buf with | none => true | some _ => false)
            && n.type = .textNode && n.nodeData.trim = "" then
      wrapTextLoop ext rest (wrapped ++ [n]) buf
    else
      match buf with
      | none => wrapTextLoop ext rest wrapped (some [n])
      | some b => wrapTextLoop ext rest wrapped (some (b ++ [n]))

/-- CleanNodes: filters each top-level node, wraps dangling li nodes in ul,
and, when WrapText is set, wraps runs of inline content in p elements. -/
def CleanNodes (ext : Externals) (c : Option Config) (nodes : List Node) : List Node :=
  let cfg := c.getD DefaultConfig
  let step1 := nodes.map (fun n =>
    let n2 := filterNode ext cfg n
    if n2.dataAtom = "li" then wrapUl n2 else n2)
  if cfg.WrapText then wrapTextLoop ext step1 [] none else step1

/-- Clean a fragment of HTML using the specified Config, or DefaultConfig
if it is none. -/
def Clean (ext : Externals) (c : Option Config) (fragment : String) : String :=
  Render ext (CleanNodes ext c (Parse ext fragment))

/-- One token of the Preprocess loop: tag tokens whose name is not an
allowed element are entity-escaped; comments are escaped when configured
or lexically malformed; doctype (the default case) is always escaped. -/
def processTok (c : Config) : Token → String
  | .textTok raw => raw
  | .startTag raw name =>
    if (c.Elem (atomLookup name)).isSome then raw else escapeString raw
  | .endTag raw name =>
    if (c.Elem (atomLookup name)).isSome then raw else escapeString raw
  | .selfClosingTag raw name =>
    if (c.Elem (atomLookup name)).isSome then raw else escapeString raw
  | .commentTok raw =>
    if c.EscapeComments || !(raw.startsWith "<!--") || !(raw.endsWith "-->") then
      escapeString raw
    else raw
  | .doctypeTok raw => escapeString raw

/-- The token loop of Preprocess over the tokens before the final
ErrorToken. -/
def processToks (c : Config) : List Token → String
  | [] => ""
  | tok :: rest => processTok c tok ++ processToks c rest

/-- Preprocess with the error plumbing of the source made explicit:
expectError(err, io.EOF) aborts on any tokenizer error other than EOF; at
EOF the raw unconsumed trailing bytes are escaped and appended. -/
def preprocessE (c : Option Config) (ts : TokStream) : Except String String :=
  let cfg := c.getD DefaultConfig
  match ts.finalErr with
  | .other msg => .error ("htmlcleaner: unexpected error: " ++ msg)
  | .eof => .ok (processToks cfg ts.toks ++ escapeString ts.trailingRaw)

/-- Preprocess escapes disallowed tags but does not fix nesting problems. -/
def Preprocess (ext : Externals) (c : Option Config) (fragment : String) : String :=
  let cfg := c.getD DefaultConfig
  let ts := ext.tokenize fragment
  processToks cfg ts.toks ++ escapeString ts.trailingRaw

/-- Void elements, rendered without a closing tag by the external
renderer. -/
def voidElements : List String :=
  ["area", "base", "br", "col", "embed", "hr", "img", "input", "keygen",
   "link", "meta", "param", "source", "track", "wbr"]

def renderAttr (a : Attribute) : String :=
  " " ++ (if a.namespc = "" then "" else a.namespc ++ ":") ++ a.key
    ++ "=" ++ "\"" ++ escapeString a.val ++ "\""

def renderAttrs : List Attribute → String
  | [] => ""
  | a :: rest => renderAttr a ++ renderAttrs rest

mutual
/-- A concrete model of the external renderer, used to instantiate
Externals in witnesses and counterexamples: elements serialize as open
tag, attributes, children, close tag (void elements self-close); text
serializes entity-escaped; comments and doctypes serialize with their
delimiters. -/
def modelRender : Node → String
  | .mk t _ d _ attrs cs =>
    match t with
    | .textNode => escapeString d
    | .elementNode =>
      if d ∈ voidElements then "<" ++ d ++ renderAttrs attrs ++ "/>"
      else "<" ++ d ++ renderAttrs attrs ++ ">" ++ modelRenderList cs ++ "</" ++ d ++ ">"
    | .commentNode => "<!--" ++ d ++ "-->"
    | .doctypeNode => "<!DOCTYPE " ++ d ++ ">"
    | _ => ""
def modelRenderList : NodeList → String
  | .nil => ""
  | .cons n rest => modelRender n ++ modelRenderList rest
end

/-- A trivial instantiation of the external collaborators, enough for
witnesses whose hypotheses do not constrain them. -/
def ext0 : Externals where
  parseFragment := fun _ => []
  render1 := modelRender
  unescapeString := id
  urlParse := fun s => some ⟨"", s⟩
  urlString := fun u => u.rest
  tokenize := fun _ => ⟨[], .eof, ""⟩


/-! ### Well-formedness and invariant predicates -/

def isNilList : NodeList → Bool
  | .nil => true
  | .cons _ _ => false

mutual
/-- Parser-shaped trees: only element nodes carry children. Every tree the
external fragment parser produces satisfies this. -/
def wfNode : Node → Bool
  | .mk t _ _ _ _ cs => if t = .elementNode then wfList cs else isNilList cs
def wfList : NodeList → Bool
  | .nil => true
  | .cons n rest => wfNode n && wfList rest
end

mutual
/-- The allow-list invariant: every element node of the tree has its tag in
the Elem map and every attribute on it in the element-specific allowed set
or the global Attr set. -/
def allowedTree (c : Config) : Node → Bool
  | .mk t da _ _ attrs cs =>
    (if t = .elementNode then
      match c.Elem da with
      | some allowedAttr =>
        attrs.all (fun a => allowedAttr (atomLookup a.key) || c.Attr (atomLookup a.key))
      | none => false
     else true) && allowedTreeList c cs
def allowedTreeList (c : Config) : NodeList → Bool
  | .nil => true
  | .cons n rest => allowedTree c n && allowedTreeList c rest
end

/-- A URL-bearing attribute (href, src or poster) surviving the filter
carries the canonical string form of a URL that parsed successfully, has
an accepted scheme, and satisfies the custom predicate when one is set. -/
def urlAttrOK (ext : Externals) (c : Config) (a : Attribute) : Prop :=
  (atomLookup a.key = "href" ∨ atomLookup a.key = "src" ∨ atomLookup a.key = "poster") →
    ∃ s u, ext.urlParse s = some u ∧ allowedURLSchemes u.scheme = true ∧
      (∀ v, c.ValidateURL = some v → v u = true) ∧ a.val = ext.urlString u

mutual
/-- The URL invariant over a tree: urlAttrOK for every attribute of every
element node. -/
def urlInvariant (ext : Externals) (c : Config) : Node → Prop
  | .mk t _ _ _ attrs cs =>
    (t = .elementNode → ∀ a ∈ attrs, urlAttrOK ext c a) ∧ urlInvariantList ext c cs
def urlInvariantList (ext : Externals) (c : Config) : NodeList → Prop
  | .nil => True
  | .cons n rest => urlInvariant ext c n ∧ urlInvariantList ext c rest
end

/-- No URL-bearing attribute value of the tree parses to the javascript
scheme. -/
def attrNoJs (ext : Externals) (a : Attribute) : Prop :=
  (atomLookup a.key = "href" ∨ atomLookup a.key = "src" ∨ atomLookup a.key = "poster") →
    ∀ u, ext.urlParse a.val = some u → u.scheme ≠ "javascript"

mutual
def noJsTree (ext : Externals) : Node → Prop
  | .mk t _ _ _ attrs cs =>
    (t = .elementNode → ∀ a ∈ attrs, attrNoJs ext a) ∧ noJsTreeList ext cs
def noJsTreeList (ext : Externals) : NodeList → Prop
  | .nil => True
  | .cons n rest => noJsTree ext n ∧ noJsTreeList ext rest
end

mutual
/-- The element-nesting depth of a tree: the length of the longest chain of
element nodes from the root down (the renderer ignores children of
non-element nodes, so only element nodes contribute). -/
def elemDepth : Node → Nat
  | .mk t _ _ _ _ cs => if t = .elementNode then 1 + elemDepthList cs else 0
def elemDepthList : NodeList → Nat
  | .nil => 0
  | .cons n rest => max (elemDepth n) (elemDepthList rest)
end

/-! ### Depth-guard lemmas (claim C4) -/

mutual
theorem elemDepth_forceMaxDepth (d : Nat) (n : Node) (h : 1 ≤ d) :
    elemDepth (forceMaxDepth d n) ≤ d := by
  cases n with
  | mk t da dt ns a cs =>
    rw [forceMaxDepth]
    have hd : ¬ d = 0 := by omega
    simp only [hd, if_false]
    by_cases ht : t = NodeType.elementNode
    · rw [if_neg (by simp [ht])]
      rw [elemDepth, if_pos ht]
      have := elemDepthList_forceChildren (d - 1) cs
      omega
    · rw [if_pos (by simp [ht])]
      rw [elemDepth, if_neg ht]
      omega
theorem elemDepthList_forceChildren (d : Nat) (cs : NodeList) :
    elemDepthList (forceChildren d cs) ≤ d := by
  cases cs with
  | nil => simp [forceChildren, elemDepthList]
  | cons n rest =>
    rw [forceChildren]
    by_cases hd : d = 0
    · subst hd
      simp only [if_true, elemDepthList]
      cases n with
      | mk t da dt ns a cs2 => simp [truncateNode, elemDepth, elemDepthList]
    · simp only [hd, if_false, elemDepthList]
      have h1 : elemDepth (forceMaxDepth d n) ≤ d := elemDepth_forceMaxDepth d n (by omega)
      have h2 : elemDepthList (forceChildren d rest) ≤ d := elemDepthList_forceChildren d rest
      omega
end

/-- C4: for a positive depth limit, every tree returned by ParseDepth has
element-nesting depth at most the limit; a node reached at the limit is
forced to a Text node with its children and attributes dropped and its
data replaced by the placeholder, and its not-yet-visited siblings are
removed; a limit of zero disables the guard entirely. -/
theorem parseDepth_bounds (ext : Externals) (fragment : String) (d : Nat) (hd : 0 < d) :
    (∀ n ∈ ParseDepth ext fragment d, elemDepth n ≤ d) ∧
    (∀ t da dt ns attrs cs,
      forceMaxDepth 0 (.mk t da dt ns attrs cs) = .mk .textNode da "[omitted]" ns [] .nil) ∧
    (∀ m rest, forceChildren 0 (.cons m rest) = .cons (truncateNode m) .nil) ∧
    (∀ s, ParseDepth ext s 0 = ext.parseFragment s) := by
  refine ⟨?_, fun t da dt ns attrs cs => rfl, fun m rest => rfl, fun s => rfl⟩
  intro n hn
  rw [ParseDepth] at hn
  simp only [gt_iff_lt, hd, if_pos] at hn
  obtain ⟨m, _, rfl⟩ := List.mem_map.mp hn
  exact elemDepth_forceMaxDepth d m hd

/-- Witness for parseDepth_bounds at a concrete depth. -/
theorem parseDepth_bounds_witness :
    0 < 1 ∧
    ((∀ n ∈ ParseDepth ext0 "" 1, elemDepth n ≤ 1) ∧
     (∀ t da dt ns attrs cs,
       forceMaxDepth 0 (.mk t da dt ns attrs cs) = .mk .textNode da "[omitted]" ns [] .nil) ∧
     (∀ m rest, forceChildren 0 (.cons m rest) = .cons (truncateNode m) .nil) ∧
     (∀ s, ParseDepth ext0 s 0 = ext0.parseFragment s)) :=
  ⟨by decide, parseDepth_bounds ext0 "" 1 (by decide)⟩

/-! ### Disallowed elements become decoded text (claim C3) -/

/-- C3: an element whose tag is not in the element allow-list map is
replaced by a Text node holding the entity-decoded (unescaped)
serialization of the original element, both through the public CleanNode
entry point and through the internal cleanNode. -/
theorem cleanNode_disallowed_to_text (ext : Externals) (c : Config) (n : Node)
    (h1 : n.type = .elementNode) (h2 : c.Elem n.dataAtom = none) :
    CleanNode ext (some c) n = text (ext.unescapeString (ext.render1 n)) ∧
    cleanNode ext c n = text (ext.unescapeString (ext.render1 n)) := by
  cases n with
  | mk t da d ns attrs cs =>
    rw [Node.type] at h1
    rw [Node.dataAtom] at h2
    subst h1
    constructor
    · show filterNode ext c (.mk .elementNode da d ns attrs cs) = _
      rw [filterNode]
      simp [h2]
    · rw [cleanNode]
      simp [h2]

def disallowedNode : Node := .mk .elementNode "" "invalidtag" "" [] .nil

/-- Witness for cleanNode_disallowed_to_text on a concrete disallowed
element under the default config. -/
theorem cleanNode_disallowed_to_text_witness :
    disallowedNode.type = .elementNode ∧ DefaultConfig.Elem disallowedNode.dataAtom = none ∧
    (CleanNode ext0 (some DefaultConfig) disallowedNode
        = text (ext0.unescapeString (ext0.render1 disallowedNode)) ∧
     cleanNode ext0 DefaultConfig disallowedNode
        = text (ext0.unescapeString (ext0.render1 disallowedNode))) :=
  ⟨rfl, rfl, cleanNode_disallowed_to_text ext0 DefaultConfig disallowedNode rfl rfl⟩

/-! ### A nil config means DefaultConfig (claim C10) -/

/-- C10: calling Preprocess, Clean, CleanNodes or CleanNode with no config
behaves identically to calling it with DefaultConfig. -/
theorem nilConfig_means_default (ext : Externals) (s : String) (ns : List Node) (n : Node) :
    Preprocess ext none s = Preprocess ext (some DefaultConfig) s ∧
    Clean ext none s = Clean ext (some DefaultConfig) s ∧
    CleanNodes ext none ns = CleanNodes ext (some DefaultConfig) ns ∧
    CleanNode ext none n = CleanNode ext (some DefaultConfig) n :=
  ⟨rfl, rfl, rfl, rfl⟩

/-! ### Totality of the pipeline (claim C7) -/

/-- C7: with the only error a tokenizer over an in-memory string can
report (EOF), Preprocess returns normally (never the error branch of
expectError), the unterminated trailing token degrades to escaped text
appended to the output, a tag token with a disallowed name degrades to
escaped text, and Clean is a total composition of parse, node cleaning
and rendering from the content of the input. -/
theorem sanitize_total (ext : Externals) (c : Option Config) (s : String)
    (h : (ext.tokenize s).finalErr = TokErr.eof) :
    preprocessE c (ext.tokenize s) = .ok (Preprocess ext c s) ∧
    Preprocess ext c s
      = processToks (c.getD DefaultConfig) (ext.tokenize s).toks
          ++ escapeString (ext.tokenize s).trailingRaw ∧
    (∀ raw name, (c.getD DefaultConfig).Elem (atomLookup name) = none →
       processTok (c.getD DefaultConfig) (.startTag raw name) = escapeString raw) ∧
    Clean ext c s = Render ext (CleanNodes ext c (Parse ext s)) := by
  refine ⟨?_, rfl, ?_, rfl⟩
  · rw [preprocessE, h]
    rfl
  · intro raw name hnone
    rw [processTok, hnone]
    rfl

/-- Witness for sanitize_total on the trivial external model. -/
theorem sanitize_total_witness :
    (ext0.tokenize "").finalErr = TokErr.eof ∧
    (preprocessE none (ext0.tokenize "") = .ok (Preprocess ext0 none "") ∧
     Preprocess ext0 none ""
       = processToks (Option.getD none DefaultConfig) (ext0.tokenize "").toks
           ++ escapeString (ext0.tokenize "").trailingRaw ∧
     (∀ raw name, (Option.getD none DefaultConfig).Elem (atomLookup name) = none →
        processTok (Option.getD none DefaultConfig) (.startTag raw name) = escapeString raw) ∧
     Clean ext0 none "" = Render ext0 (CleanNodes ext0 none (Parse ext0 ""))) :=
  ⟨rfl, sanitize_total ext0 none "" rfl⟩

/-! ### Attribute-filter lemmas -/

theorem cleanURL_fields (ext : Externals) (c : Config) (a : String)
    (attr attr2 : Attribute) (h : cleanURL ext c a attr = some attr2) :
    attr2.key = attr.key ∧ attr2.namespc = attr.namespc := by
  unfold cleanURL at h
  split at h
  · simp only [Option.some.injEq] at h
    subst h; exact ⟨rfl, rfl⟩
  · split at h
    · simp at h
    · split at h
      · simp at h
      · split at h
        · split at h
          · simp only [Option.some.injEq] at h
            subst h; exact ⟨rfl, rfl⟩
          · simp at h
        · simp only [Option.some.injEq] at h
          subst h; exact ⟨rfl, rfl⟩

/-- Full characterization of a kept attribute: its namespace is empty, its
name is element-allowed or globally allowed, it passed the URL step (either
skipped wholesale by AllowJavascriptURL or transformed by cleanURL), and it
passed the value pattern when one is configured. -/
theorem keepAttr_cases (ext : Externals) (c : Config) (el : String)
    (A : String → Bool) (attr attr2 : Attribute)
    (h : keepAttr ext c el A attr = some attr2) :
    attr.namespc = "" ∧ (A (atomLookup attr.key) || c.Attr (atomLookup attr.key)) = true ∧
    ((c.AllowJavascriptURL = true ∧ attr2 = attr) ∨
     (c.AllowJavascriptURL = false ∧ cleanURL ext c (atomLookup attr.key) attr = some attr2)) ∧
    (∀ re, c.AttrMatch el (atomLookup attr.key) = some re → re attr2.val = true) := by
  rw [keepAttr] at h
  cases h1 : (!(decide (attr.namespc = "")) || (!(A (atomLookup attr.key)) && !(c.Attr (atomLookup attr.key)))) with
  | true => rw [h1] at h; simp at h
  | false =>
    rw [h1] at h
    simp only [Bool.false_eq_true, if_false] at h
    have hns : attr.namespc = "" := by
      cases hx : decide (attr.namespc = "") with
      | true => exact of_decide_eq_true hx
      | false => rw [hx] at h1; simp at h1
    have hallow : (A (atomLookup attr.key) || c.Attr (atomLookup attr.key)) = true := by
      cases hA : A (atomLookup attr.key) with
      | true => simp
      | false =>
        cases hB : c.Attr (atomLookup attr.key) with
        | true => simp
        | false => rw [hA, hB] at h1; simp [hns] at h1
    refine ⟨hns, hallow, ?_⟩
    cases hjs : c.AllowJavascriptURL with
    | true =>
      rw [hjs] at h
      cases hm : c.AttrMatch el (atomLookup attr.key) with
      | none =>
        rw [hm] at h
        simp at h
        subst h
        exact ⟨Or.inl ⟨rfl, rfl⟩, fun re2 h2 => nomatch h2⟩
      | some re =>
        rw [hm] at h
        cases hre : re attr.val with
        | true =>
          simp [hre] at h
          subst h
          refine ⟨Or.inl ⟨rfl, rfl⟩, ?_⟩
          intro re2 h2
          cases h2
          exact hre
        | false => simp [hre] at h
    | false =>
      rw [hjs] at h
      cases hcu : cleanURL ext c (atomLookup attr.key) attr with
      | none => rw [hcu] at h; simp at h
      | some attrU =>
        rw [hcu] at h
        cases hm : c.AttrMatch el (atomLookup attr.key) with
        | none =>
          rw [hm] at h
          simp at h
          subst h
          exact ⟨Or.inr ⟨rfl, rfl⟩, fun re2 h2 => nomatch h2⟩
        | some re =>
          rw [hm] at h
          cases hre : re attrU.val with
          | true =>
            simp [hre] at h
            subst h
            refine ⟨Or.inr ⟨rfl, rfl⟩, ?_⟩
            intro re2 h2
            cases h2
            exact hre
          | false => simp [hre] at h

/-- A kept attribute keeps its key, has empty namespace, and its name was
allowed. -/
theorem keepAttr_fields (ext : Externals) (c : Config) (el : String)
    (A : String → Bool) (attr attr2 : Attribute)
    (h : keepAttr ext c el A attr = some attr2) :
    attr.namespc = "" ∧ (A (atomLookup attr.key) || c.Attr (atomLookup attr.key)) = true ∧
    attr2.key = attr.key ∧ attr2.namespc = "" := by
  obtain ⟨hns, hallow, hurl, _⟩ := keepAttr_cases ext c el A attr attr2 h
  refine ⟨hns, hallow, ?_⟩
  rcases hurl with ⟨_, rfl⟩ | ⟨_, hcu⟩
  · exact ⟨rfl, hns⟩
  · have := cleanURL_fields ext c (atomLookup attr.key) attr attr2 hcu
    exact ⟨this.1, this.2.trans hns⟩

theorem cleanAttrList_all_allowed (ext : Externals) (c : Config) (el : String)
    (A : String → Bool) (attrs : List Attribute) :
    (cleanAttrList ext c el A attrs).all
      (fun a => A (atomLookup a.key) || c.Attr (atomLookup a.key)) = true := by
  induction attrs with
  | nil => rfl
  | cons attr rest ih =>
    rw [cleanAttrList]
    cases hk : keepAttr ext c el A attr with
    | none => exact ih
    | some attr2 =>
      rw [List.all_cons, ih, Bool.and_true]
      have hf := keepAttr_fields ext c el A attr attr2 hk
      rw [hf.2.2.1]
      exact hf.2.1

/-! ### Allow-list soundness of the filter (claim C2) -/

theorem wf_children_nil (t : NodeType) (da d ns : String) (attrs : List Attribute)
    (cs : NodeList) (ht : ¬ t = NodeType.elementNode)
    (h : wfNode (.mk t da d ns attrs cs) = true) : cs = .nil := by
  rw [wfNode, if_neg ht] at h
  cases cs with
  | nil => rfl
  | cons a b => simp [isNilList] at h

theorem wf_element_children (t : NodeType) (da d ns : String) (attrs : List Attribute)
    (cs : NodeList) (ht : t = NodeType.elementNode)
    (h : wfNode (.mk t da d ns attrs cs) = true) : wfList cs = true := by
  rw [wfNode, if_pos ht] at h
  exact h

theorem allowedTree_element_some_eq {c : Config} {da : String} {A : String → Bool}
    (hE : c.Elem da = some A) (d ns : String) (attrs : List Attribute) (cs : NodeList) :
    allowedTree c (.mk .elementNode da d ns attrs cs)
      = ((attrs.all (fun a => A (atomLookup a.key) || c.Attr (atomLookup a.key)))
          && allowedTreeList c cs) := by
  rw [allowedTree, hE]
  rfl

mutual
theorem allowedTree_filterNode (ext : Externals) (c : Config) (n : Node)
    (h : wfNode n = true) : allowedTree c (filterNode ext c n) = true := by
  cases n with
  | mk t da d ns attrs cs =>
    cases t with
    | textNode =>
      rw [filterNode_text_eq]
      have hcs : cs = .nil := wf_children_nil _ da d ns attrs cs (by decide) h
      subst hcs
      rfl
    | commentNode =>
      cases hesc : c.EscapeComments with
      | false =>
        rw [filterNode_comment_eq hesc]
        have hcs : cs = .nil := wf_children_nil _ da d ns attrs cs (by decide) h
        subst hcs
        rfl
      | true =>
        rw [filterNode_comment_esc_eq hesc]
        rfl
    | doctypeNode => rw [filterNode_doctype_eq]; rfl
    | documentNode => rw [filterNode_document_eq]; rfl
    | errorNode => rw [filterNode_error_eq]; rfl
    | rawNode => rw [filterNode_raw_eq]; rfl
    | elementNode =>
      rw [filterNode_element_eq]
      cases hE : c.Elem da with
      | none =>
        rw [cleanNode_none_eq hE]
        rfl
      | some A =>
        rw [cleanNode_some_eq hE]
        by_cases himg : (da = "img" && !((cleanAttrList ext c da A attrs).any
            (fun a => atomLookup a.key = "src"))) = true
        · rw [if_pos himg]
          rfl
        · rw [if_neg himg]
          rw [allowedTree_element_some_eq hE]
          rw [cleanAttrList_all_allowed ext c da A attrs, Bool.true_and]
          exact allowedTreeList_cleanChildren ext c cs
            (wf_element_children _ da d ns attrs cs rfl h)
theorem allowedTreeList_cleanChildren (ext : Externals) (c : Config) (cs : NodeList)
    (h : wfList cs = true) : allowedTreeList c (cleanChildren ext c cs) = true := by
  cases cs with
  | nil => rfl
  | cons n rest =>
    rw [wfList, Bool.and_eq_true] at h
    rw [cleanChildren, allowedTreeList,
      allowedTree_filterNode ext c n h.1,
      allowedTreeList_cleanChildren ext c rest h.2]
    rfl
end

/-- A config allowing li but not ul, for the structural-repair
counterexamples. -/
def cLi : Config where
  Elem := fun e => if e = "li" then some (fun _ => false) else none
  Attr := fun _ => false
  AllowJavascriptURL := false
  EscapeComments := false
  WrapText := false
  AttrMatch := fun _ _ => none
  ValidateURL := none

/-- A bare li element, as the fragment parser produces for the input
consisting of a single li tag. -/
def liN : Node := .mk .elementNode "li" "li" "" [] .nil

/-- C2 counterexample: the claim quantifies over every config and speaks
of the output of CleanNodes after structural repair, but the dangling-li
repair wraps a kept li in a fresh ul element without consulting the
allow-list, so with a config whose element map contains li but not ul the
output of CleanNodes contains an element whose tag is not in the map. -/
theorem allowlist_cleanNodes_counterexample :
    (CleanNodes ext0 (some cLi) [liN]).all (fun n => allowedTree cLi n) = false := by
  decide

/-- C2 amended: the allow-list invariant holds of the filter stage: for
every config and parser-shaped input node, every element node in the
output of CleanNode has its tag in the Elem map and every attribute on it
in that element's allowed set or the global set. (CleanNodes may
additionally introduce attribute-free ul and p wrapper elements that need
not be in the map.) -/
theorem allowlist_sound_filter (ext : Externals) (c : Config) (n : Node)
    (h : wfNode n = true) : allowedTree c (CleanNode ext (some c) n) = true :=
  allowedTree_filterNode ext c n h

/-- Witness for allowlist_sound_filter on a concrete node. -/
theorem allowlist_sound_filter_witness :
    wfNode liN = true ∧ allowedTree cLi (CleanNode ext0 (some cLi) liN) = true :=
  ⟨by decide, allowlist_sound_filter ext0 cLi liN (by decide)⟩

/-! ### URL filtering soundness (claim C1) -/

theorem cleanURL_url_some {ext : Externals} {c : Config} {a : String}
    {attr attr2 : Attribute}
    (hurl : a = "href" ∨ a = "src" ∨ a = "poster")
    (h : cleanURL ext c a attr = some attr2) :
    ∃ u, ext.urlParse attr.val = some u ∧ allowedURLSchemes u.scheme = true ∧
      (∀ v, c.ValidateURL = some v → v u = true) ∧
      attr2 = { attr with val := ext.urlString u } := by
  rw [cleanURL] at h
  have hcond : (!(a = "href") && !(a = "src") && !(a = "poster")) = false := by
    rcases hurl with rfl | rfl | rfl <;> simp
  rw [hcond] at h
  simp only [Bool.false_eq_true, if_false] at h
  cases hp : ext.urlParse attr.val with
  | none => rw [hp] at h; simp at h
  | some u =>
    rw [hp] at h
    replace h :
        (if !(allowedURLSchemes u.scheme) then none
         else
           match c.ValidateURL with
           | some validate =>
             if validate u then some { attr with val := ext.urlString u } else none
           | none => some { attr with val := ext.urlString u }) = some attr2 := h
    cases hsch : allowedURLSchemes u.scheme with
    | false => rw [hsch] at h; simp at h
    | true =>
      rw [hsch] at h
      simp only [Bool.not_true, Bool.false_eq_true, if_false] at h
      cases hv : c.ValidateURL with
      | none =>
        rw [hv] at h
        simp only [Option.some.injEq] at h
        exact ⟨u, rfl, hsch, (fun v2 hv2 => nomatch hv2), h.symm⟩
      | some v =>
        rw [hv] at h
        replace h :
            (if v u then some { attr with val := ext.urlString u } else none)
              = some attr2 := h
        cases hvu : v u with
        | false => rw [hvu] at h; simp at h
        | true =>
          rw [hvu] at h
          simp only [if_pos, Option.some.injEq] at h
          refine ⟨u, rfl, hsch, ?_, h.symm⟩
          intro v2 hv2
          cases hv2
          exact hvu

theorem keepAttr_urlAttrOK {ext : Externals} {c : Config} {el : String}
    {A : String → Bool} {attr attr2 : Attribute}
    (hjs : c.AllowJavascriptURL = false)
    (h : keepAttr ext c el A attr = some attr2) :
    urlAttrOK ext c attr2 := by
  obtain ⟨hns, hallow, hurl, hmatch⟩ := keepAttr_cases ext c el A attr attr2 h
  have hkey : attr2.key = attr.key :=
    (keepAttr_fields ext c el A attr attr2 h).2.2.1
  rcases hurl with ⟨hjs2, _⟩ | ⟨_, hcu⟩
  · rw [hjs2] at hjs; cases hjs
  · intro hname
    rw [hkey] at hname
    obtain ⟨u, hp, hsch, hval, hattr2⟩ := cleanURL_url_some hname hcu
    exact ⟨attr.val, u, hp, hsch, hval, by rw [hattr2]⟩

theorem cleanAttrList_urlAttrOK (ext : Externals) (c : Config) (el : String)
    (A : String → Bool) (attrs : List Attribute)
    (hjs : c.AllowJavascriptURL = false) :
    ∀ a ∈ cleanAttrList ext c el A attrs, urlAttrOK ext c a := by
  induction attrs with
  | nil => intro a ha; cases ha
  | cons attr rest ih =>
    intro a ha
    rw [cleanAttrList] at ha
    cases hk : keepAttr ext c el A attr with
    | none => rw [hk] at ha; exact ih a ha
    | some attr2 =>
      rw [hk] at ha
      rcases List.mem_cons.mp ha with rfl | ha2
      · exact keepAttr_urlAttrOK hjs hk
      · exact ih a ha2

mutual
theorem urlInvariant_filterNode (ext : Externals) (c : Config) (n : Node)
    (hwf : wfNode n = true) (hjs : c.AllowJavascriptURL = false) :
    urlInvariant ext c (filterNode ext c n) := by
  cases n with
  | mk t da d ns attrs cs =>
    cases t with
    | textNode =>
      rw [filterNode_text_eq]
      have hcs : cs = .nil := wf_children_nil _ da d ns attrs cs (by decide) hwf
      subst hcs
      exact ⟨(fun hx => nomatch hx), trivial⟩
    | commentNode =>
      cases hesc : c.EscapeComments with
      | false =>
        rw [filterNode_comment_eq hesc]
        have hcs : cs = .nil := wf_children_nil _ da d ns attrs cs (by decide) hwf
        subst hcs
        exact ⟨(fun hx => nomatch hx), trivial⟩
      | true =>
        rw [filterNode_comment_esc_eq hesc]
        exact ⟨(fun hx => nomatch hx), trivial⟩
    | doctypeNode =>
      rw [filterNode_doctype_eq]; exact ⟨(fun hx => nomatch hx), trivial⟩
    | documentNode =>
      rw [filterNode_document_eq]; exact ⟨(fun hx => nomatch hx), trivial⟩
    | errorNode =>
      rw [filterNode_error_eq]; exact ⟨(fun hx => nomatch hx), trivial⟩
    | rawNode =>
      rw [filterNode_raw_eq]; exact ⟨(fun hx => nomatch hx), trivial⟩
    | elementNode =>
      rw [filterNode_element_eq]
      cases hE : c.Elem da with
      | none =>
        rw [cleanNode_none_eq hE]
        exact ⟨(fun hx => nomatch hx), trivial⟩
      | some A =>
        rw [cleanNode_some_eq hE]
        by_cases himg : (da = "img" && !((cleanAttrList ext c da A attrs).any
            (fun a => atomLookup a.key = "src"))) = true
        · rw [if_pos himg]
          exact ⟨(fun hx => nomatch hx), trivial⟩
        · rw [if_neg himg]
          rw [urlInvariant]
          exact ⟨fun _ => cleanAttrList_urlAttrOK ext c da A attrs hjs,
            urlInvariantList_cleanChildren ext c cs
              (wf_element_children _ da d ns attrs cs rfl hwf) hjs⟩
theorem urlInvariantList_cleanChildren (ext : Externals) (c : Config) (cs : NodeList)
    (hwf : wfList cs = true) (hjs : c.AllowJavascriptURL = false) :
    urlInvariantList ext c (cleanChildren ext c cs) := by
  cases cs with
  | nil => trivial
  | cons n rest =>
    rw [wfList, Bool.and_eq_true] at hwf
    rw [cleanChildren, urlInvariantList]
    exact ⟨urlInvariant_filterNode ext c n hwf.1 hjs,
      urlInvariantList_cleanChildren ext c rest hwf.2 hjs⟩
end

theorem scheme_not_javascript {s : String} (h : allowedURLSchemes s = true) :
    s ≠ "javascript" := by
  intro hx
  rw [hx] at h
  simp [allowedURLSchemes] at h

mutual
theorem noJs_of_urlInvariant (ext : Externals) (c : Config) (n : Node)
    (hRT : ∀ s u, ext.urlParse s = some u → ext.urlParse (ext.urlString u) = some u)
    (hinv : urlInvariant ext c n) : noJsTree ext n := by
  cases n with
  | mk t da d ns attrs cs =>
    rw [urlInvariant] at hinv
    rw [noJsTree]
    refine ⟨?_, noJsList_of_urlInvariantList ext c cs hRT hinv.2⟩
    intro ht a ha hname u hu
    obtain ⟨s, u0, hp, hsch, _, hval⟩ := hinv.1 ht a ha hname
    rw [hval] at hu
    rw [hRT s u0 hp] at hu
    cases hu
    exact scheme_not_javascript hsch
theorem noJsList_of_urlInvariantList (ext : Externals) (c : Config) (cs : NodeList)
    (hRT : ∀ s u, ext.urlParse s = some u → ext.urlParse (ext.urlString u) = some u)
    (hinv : urlInvariantList ext c cs) : noJsTreeList ext cs := by
  cases cs with
  | nil => trivial
  | cons n rest =>
    rw [urlInvariantList] at hinv
    exact ⟨noJs_of_urlInvariant ext c n hRT hinv.1,
      noJsList_of_urlInvariantList ext c rest hRT hinv.2⟩
end

/-- C1: with AllowJavascriptURL unset, every kept element in the output of
the filter has each href, src or poster attribute equal to the canonical
string form of a URL that parsed successfully with an accepted scheme
(http, https, mailto, data or empty) and passed the ValidateURL predicate
when one is set (attributes failing any of these are dropped); given that
the canonical string form of a parsed URL re-parses to the same URL (a
documented property of the external URL package), no surviving
href/src/poster value parses to scheme javascript; and when
AllowJavascriptURL is set the whole URL check is skipped, the attribute
value passing through untouched. -/
theorem url_filtering_sound (ext : Externals) (c : Config) (n : Node)
    (hwf : wfNode n = true) (hjs : c.AllowJavascriptURL = false) :
    urlInvariant ext c (filterNode ext c n) ∧
    ((∀ s u, ext.urlParse s = some u → ext.urlParse (ext.urlString u) = some u) →
      noJsTree ext (filterNode ext c n)) ∧
    (∀ (c2 : Config) (el : String) (A : String → Bool) (attr attr2 : Attribute),
      c2.AllowJavascriptURL = true → keepAttr ext c2 el A attr = some attr2 → attr2 = attr) := by
  refine ⟨urlInvariant_filterNode ext c n hwf hjs, ?_, ?_⟩
  · intro hRT
    exact noJs_of_urlInvariant ext c (filterNode ext c n) hRT
      (urlInvariant_filterNode ext c n hwf hjs)
  · intro c2 el A attr attr2 hjs2 h
    obtain ⟨_, _, hurl, _⟩ := keepAttr_cases ext c2 el A attr attr2 h
    rcases hurl with ⟨_, rfl⟩ | ⟨hjs3, _⟩
    · rfl
    · rw [hjs3] at hjs2; cases hjs2

/-- Witness for url_filtering_sound on the trivial external model and the
default config. -/
theorem url_filtering_sound_witness :
    wfNode liN = true ∧ DefaultConfig.AllowJavascriptURL = false ∧
    (urlInvariant ext0 DefaultConfig (filterNode ext0 DefaultConfig liN) ∧
     ((∀ s u, ext0.urlParse s = some u → ext0.urlParse (ext0.urlString u) = some u) →
       noJsTree ext0 (filterNode ext0 DefaultConfig liN)) ∧
     (∀ (c2 : Config) (el : String) (A : String → Bool) (attr attr2 : Attribute),
       c2.AllowJavascriptURL = true → keepAttr ext0 c2 el A attr = some attr2 → attr2 = attr)) :=
  ⟨by decide, rfl, url_filtering_sound ext0 DefaultConfig liN (by decide) rfl⟩

/-! ### Idempotence (claim C5) -/

/-- A concrete external model reflecting the real parser and renderer on
the inputs of the idempotence counterexample: a bare li tag parses to one
li element, and the rendering of the wrapped list re-parses to the same
tree. -/
def extCE : Externals where
  parseFragment := fun s =>
    if s = "<li>" then [liN]
    else if s = "<ul><li></li></ul>" then [wrapUl liN]
    else []
  render1 := modelRender
  unescapeString := id
  urlParse := fun s => some ⟨"", s⟩
  urlString := fun u => u.rest
  tokenize := fun _ => ⟨[], .eof, ""⟩

/-- C5 counterexample: with a config allowing li but not ul, cleaning a
bare li tag produces the ul-wrapped list, and cleaning that output again
demotes the (disallowed) ul element to escaped text, so Clean composed
with itself differs from Clean. -/
theorem clean_not_idempotent :
    Clean extCE (some cLi) (Clean extCE (some cLi) "<li>")
      ≠ Clean extCE (some cLi) "<li>" := by
  decide

theorem keepAttr_idem {ext : Externals} {c : Config} {el : String}
    {A : String → Bool} {attr attr2 : Attribute}
    (hRT : ∀ s u, ext.urlParse s = some u → ext.urlParse (ext.urlString u) = some u)
    (h : keepAttr ext c el A attr = some attr2) :
    keepAttr ext c el A attr2 = some attr2 := by
  obtain ⟨hns, hallow, hurl, hmatch⟩ := keepAttr_cases ext c el A attr attr2 h
  obtain ⟨-, -, hkey2, hns2⟩ := keepAttr_fields ext c el A attr attr2 h
  have hcond2 : (!(attr2.namespc = "")
      || (!(A (atomLookup attr.key)) && !(c.Attr (atomLookup attr.key)))) = false := by
    rw [hns2]
    cases hA : A (atomLookup attr.key) with
    | true => simp
    | false =>
      rw [hA] at hallow
      simp only [Bool.false_or] at hallow
      simp [hallow]
  rw [keepAttr, hkey2, hcond2]
  simp only [Bool.false_eq_true, if_false]
  rcases hurl with ⟨hjs, heq⟩ | ⟨hjs, hcu⟩
  · subst heq
    rw [hjs]
    cases hm : c.AttrMatch el (atomLookup attr2.key) with
    | none => simp [hm]
    | some re => simp [hm, hmatch re hm]
  · rw [hjs]
    by_cases hname : (atomLookup attr.key = "href" ∨ atomLookup attr.key = "src"
        ∨ atomLookup attr.key = "poster")
    · obtain ⟨u, hp, hsch, hval, hattr2⟩ := cleanURL_url_some hname hcu
      have hp2 : ext.urlParse attr2.val = some u := by
        rw [hattr2]
        exact hRT attr.val u hp
      have heta : { attr2 with val := ext.urlString u } = attr2 := by
        rw [hattr2]
      have hcondname : (!(atomLookup attr.key = "href") && !(atomLookup attr.key = "src")
          && !(atomLookup attr.key = "poster")) = false := by
        rcases hname with hx | hx | hx <;> simp [hx]
      have hcu2 : cleanURL ext c (atomLookup attr.key) attr2 = some attr2 := by
        rw [cleanURL, hcondname]
        simp only [Bool.false_eq_true, if_false]
        rw [hp2]
        show (if !(allowedURLSchemes u.scheme) then none
              else
                match c.ValidateURL with
                | some validate =>
                  if validate u then some { attr2 with val := ext.urlString u } else none
                | none => some { attr2 with val := ext.urlString u }) = some attr2
        rw [hsch]
        simp only [Bool.not_true, Bool.false_eq_true, if_false]
        cases hv : c.ValidateURL with
        | none => simp [heta]
        | some v =>
          show (if v u then some { attr2 with val := ext.urlString u } else none)
            = some attr2
          rw [hval v hv]
          simp [heta]
      rw [hcu2]
      cases hm : c.AttrMatch el (atomLookup attr.key) with
      | none => simp [hm]
      | some re => simp [hm, hmatch re hm]
    · have hcondname : (!(atomLookup attr.key = "href") && !(atomLookup attr.key = "src")
          && !(atomLookup attr.key = "poster")) = true := by
        simp only [not_or] at hname
        simp [hname.1, hname.2.1, hname.2.2]
      have hattr2 : attr2 = attr := by
        rw [cleanURL, hcondname] at hcu
        simp only [if_pos, Option.some.injEq] at hcu
        exact hcu.symm
      subst hattr2
      have hcu2 : cleanURL ext c (atomLookup attr2.key) attr2 = some attr2 := by
        rw [cleanURL, hcondname]
        rfl
      rw [hcu2]
      cases hm : c.AttrMatch el (atomLookup attr2.key) with
      | none => simp [hm]
      | some re => simp [hm, hmatch re hm]

theorem cleanAttrList_idem (ext : Externals) (c : Config) (el : String)
    (A : String → Bool) (attrs : List Attribute)
    (hRT : ∀ s u, ext.urlParse s = some u → ext.urlParse (ext.urlString u) = some u) :
    cleanAttrList ext c el A (cleanAttrList ext c el A attrs)
      = cleanAttrList ext c el A attrs := by
  induction attrs with
  | nil => rfl
  | cons attr rest ih =>
    rw [cleanAttrList]
    cases hk : keepAttr ext c el A attr with
    | none => exact ih
    | some attr2 =>
      rw [cleanAttrList, keepAttr_idem hRT hk, ih]

theorem filterNode_textdef (ext : Externals) (c : Config) (s : String) :
    filterNode ext c (text s) = text s := rfl

mutual
theorem filterNode_idem (ext : Externals) (c : Config) (n : Node)
    (hRT : ∀ s u, ext.urlParse s = some u → ext.urlParse (ext.urlString u) = some u) :
    filterNode ext c (filterNode ext c n) = filterNode ext c n := by
  cases n with
  | mk t da d ns attrs cs =>
    cases t with
    | textNode => rw [filterNode_text_eq, filterNode_text_eq]
    | commentNode =>
      cases hesc : c.EscapeComments with
      | false => rw [filterNode_comment_eq hesc, filterNode_comment_eq hesc]
      | true => rw [filterNode_comment_esc_eq hesc, filterNode_textdef]
    | doctypeNode => rw [filterNode_doctype_eq, filterNode_textdef]
    | documentNode => rw [filterNode_document_eq, filterNode_textdef]
    | errorNode => rw [filterNode_error_eq, filterNode_textdef]
    | rawNode => rw [filterNode_raw_eq, filterNode_textdef]
    | elementNode =>
      rw [filterNode_element_eq]
      cases hE : c.Elem da with
      | none => rw [cleanNode_none_eq hE, filterNode_textdef]
      | some A =>
        rw [cleanNode_some_eq hE]
        by_cases himg : (da = "img" && !((cleanAttrList ext c da A attrs).any
            (fun a => atomLookup a.key = "src"))) = true
        · rw [if_pos himg]
          rw [filterNode_text_eq]
        · rw [if_neg himg]
          rw [filterNode_element_eq, cleanNode_some_eq hE]
          rw [cleanAttrList_idem ext c da A attrs hRT]
          rw [if_neg himg]
          rw [cleanChildren_idem ext c cs hRT]
theorem cleanChildren_idem (ext : Externals) (c : Config) (cs : NodeList)
    (hRT : ∀ s u, ext.urlParse s = some u → ext.urlParse (ext.urlString u) = some u) :
    cleanChildren ext c (cleanChildren ext c cs) = cleanChildren ext c cs := by
  cases cs with
  | nil => rfl
  | cons n rest =>
    rw [cleanChildren, cleanChildren, filterNode_idem ext c n hRT,
      cleanChildren_idem ext c rest hRT]
end

/-- C5 amended: the string-level pipeline Clean is not idempotent for
every config (the counterexample wraps a kept li in a ul the config does
not allow, which the second pass demotes to escaped text); what holds for
every config is idempotence of the node filter: CleanNode composed with
itself equals CleanNode, given that the canonical string form of a parsed
URL re-parses to the same URL. -/
theorem cleanNode_idempotent (ext : Externals) (c : Option Config) (n : Node)
    (hRT : ∀ s u, ext.urlParse s = some u → ext.urlParse (ext.urlString u) = some u) :
    CleanNode ext c (CleanNode ext c n) = CleanNode ext c n :=
  filterNode_idem ext (c.getD DefaultConfig) n hRT

/-- Witness for cleanNode_idempotent: the trivial external model satisfies
the round-trip hypothesis. -/
theorem cleanNode_idempotent_witness :
    (∀ s u, ext0.urlParse s = some u → ext0.urlParse (ext0.urlString u) = some u) ∧
    CleanNode ext0 (some DefaultConfig) (CleanNode ext0 (some DefaultConfig) liN)
      = CleanNode ext0 (some DefaultConfig) liN := by
  have hRT : ∀ s u, ext0.urlParse s = some u → ext0.urlParse (ext0.urlString u) = some u := by
    intro s u h
    rw [show ext0.urlParse s = some ⟨"", s⟩ from rfl] at h
    cases h
    rfl
  exact ⟨hRT, cleanNode_idempotent ext0 (some DefaultConfig) liN hRT⟩

/-! ### Images without a src are removed (claim C9) -/

def imgInput : String := "<img href alt></img>"

/-- The tree the fragment parser produces for imgInput: one img element
with valueless href and alt attributes. -/
def imgNode0 : Node :=
  .mk .elementNode "img" "img" "" [⟨"", "href", ""⟩, ⟨"", "alt", ""⟩] .nil

def emptyTextNode : Node := .mk .textNode "" "" "" [] .nil

/-- C9: for every config that allows img, an img element whose filtered
attribute list has no surviving src attribute is replaced by an empty Text
node; and, with the default config, the input with an img carrying only
href and alt sanitizes to the empty string (given the parser's concrete
tree for that input and that the renderer emits nothing for an empty text
node). -/
theorem img_without_src_removed (ext : Externals) :
    (∀ (c : Config) (d ns : String) (attrs : List Attribute) (cs : NodeList)
       (A : String → Bool),
       c.Elem "img" = some A →
       (cleanAttrList ext c "img" A attrs).any (fun a => atomLookup a.key = "src") = false →
       filterNode ext c (.mk .elementNode "img" d ns attrs cs) = emptyTextNode) ∧
    (ext.parseFragment imgInput = [imgNode0] →
     ext.render1 emptyTextNode = "" →
     Clean ext none imgInput = "") := by
  constructor
  · intro c d ns attrs cs A hA hsrc
    rw [filterNode_element_eq, cleanNode_some_eq hA, hsrc]
    simp [emptyTextNode]
  · intro hp hr
    have h1 : Parse ext imgInput = [imgNode0] := by
      rw [Parse, ParseDepth, hp]
      rfl
    have h2 : CleanNodes ext none [imgNode0] = [emptyTextNode] := rfl
    rw [Clean, h1, h2, Render, hr, Render]
    rfl

/-- An external model whose parser produces the img tree for imgInput. -/
def extC9 : Externals :=
  { ext0 with parseFragment := fun s => if s = imgInput then [imgNode0] else [] }

/-- Witness for img_without_src_removed on the concrete model. -/
theorem img_without_src_removed_witness :
    DefaultConfig.Elem "img" = some (fun a => a = "src" || a = "alt") ∧
    (cleanAttrList extC9 DefaultConfig "img" (fun a => a = "src" || a = "alt")
        [⟨"", "href", ""⟩, ⟨"", "alt", ""⟩]).any
      (fun a => atomLookup a.key = "src") = false ∧
    extC9.parseFragment imgInput = [imgNode0] ∧
    extC9.render1 emptyTextNode = "" ∧
    filterNode extC9 DefaultConfig
      (.mk .elementNode "img" "img" "" [⟨"", "href", ""⟩, ⟨"", "alt", ""⟩] .nil)
      = emptyTextNode ∧
    Clean extC9 none imgInput = "" :=
  ⟨rfl, by decide, by decide, by decide,
    (img_without_src_removed extC9).1 DefaultConfig "img" ""
      [⟨"", "href", ""⟩, ⟨"", "alt", ""⟩] .nil (fun a => a = "src" || a = "alt") rfl (by decide),
    (img_without_src_removed extC9).2 (by decide) (by decide)⟩

/-! ### WrapText re-parse on flush (claim C8) -/

def wrapConfig : Config := { DefaultConfig with WrapText := true }

def textN (s : String) : Node := .mk .textNode "" s "" [] .nil

def emIn : String := "<em>hello <p>world</p>"

/-- The tree the fragment parser produces for emIn: an em element holding
the text and the (illegally nested) p element. -/
def emTree : Node :=
  .mk .elementNode "em" "em" "" []
    (.cons (textN "hello ")
      (.cons (.mk .elementNode "p" "p" "" [] (.cons (textN "world") .nil)) .nil))

def wrapperRendered : String := "<p><em>hello <p>world</p></em></p>"

/-- The three sibling paragraphs the fragment parser produces when the
rendered wrapper is re-parsed. -/
def c8out1 : Node :=
  .mk .elementNode "p" "p" "" []
    (.cons (.mk .elementNode "em" "em" "" [] (.cons (textN "hello ") .nil)) .nil)

def c8out2 : Node :=
  .mk .elementNode "p" "p" "" []
    (.cons (.mk .elementNode "em" "em" "" [] (.cons (textN "world") .nil)) .nil)

def c8out3 : Node := .mk .elementNode "p" "p" "" [] .nil

/-- C8: with WrapText enabled, each flushed paragraph buffer in CleanNodes
is serialized and re-parsed through ParseDepth with maxDepth zero, which
disables the depth guard; and on the concrete example (policy allowing em
and p), given the external parser's trees for the input and for the
re-parsed wrapper and the renderer's serializations, the input with a p
nested inside an em sanitizes to three sibling paragraphs. -/
theorem wraptext_reparse_flush (ext : Externals) :
    (∀ s, ParseDepth ext s 0 = ext.parseFragment s) ∧
    (∀ buf, flushWrapper ext buf = ext.parseFragment (ext.render1 (wrapperNode buf))) ∧
    (ext.parseFragment emIn = [emTree] →
     ext.parseFragment wrapperRendered = [c8out1, c8out2, c8out3] →
     ext.render1 (wrapperNode [emTree]) = wrapperRendered →
     ext.render1 c8out1 = "<p><em>hello </em></p>" →
     ext.render1 c8out2 = "<p><em>world</em></p>" →
     ext.render1 c8out3 = "<p></p>" →
     Clean ext (some wrapConfig) emIn
       = "<p><em>hello </em></p><p><em>world</em></p><p></p>") := by
  refine ⟨fun s => rfl, fun buf => rfl, ?_⟩
  intro hpem hpw hrw h3 h4 h5
  have h1 : Parse ext emIn = [emTree] := by
    rw [Parse, ParseDepth, hpem]
    rfl
  have h2 : CleanNodes ext (some wrapConfig) [emTree]
      = ext.parseFragment (ext.render1 (wrapperNode [emTree])) := rfl
  rw [Clean, h1, h2, hrw, hpw, Render, h3, Render, h4, Render, h5, Render]
  decide

/-- An external model reflecting the real parser and renderer on the
concrete inputs of the WrapText example. -/
def extC8 : Externals :=
  { ext0 with
    parseFragment := fun s =>
      if s = emIn then [emTree]
      else if s = wrapperRendered then [c8out1, c8out2, c8out3]
      else [] }

/-- Witness for wraptext_reparse_flush on the concrete model. -/
theorem wraptext_reparse_flush_witness :
    extC8.parseFragment emIn = [emTree] ∧
    extC8.parseFragment wrapperRendered = [c8out1, c8out2, c8out3] ∧
    extC8.render1 (wrapperNode [emTree]) = wrapperRendered ∧
    extC8.render1 c8out1 = "<p><em>hello </em></p>" ∧
    extC8.render1 c8out2 = "<p><em>world</em></p>" ∧
    extC8.render1 c8out3 = "<p></p>" ∧
    (∀ s, ParseDepth extC8 s 0 = extC8.parseFragment s) ∧
    Clean extC8 (some wrapConfig) emIn
      = "<p><em>hello </em></p><p><em>world</em></p><p></p>" :=
  ⟨by decide, by decide, by decide, by decide, by decide, by decide,
    (wraptext_reparse_flush extC8).1,
    (wraptext_reparse_flush extC8).2.2 (by decide) (by decide) (by decide)
      (by decide) (by decide) (by decide)⟩

/-! ### Heap model of the filter (claim C6)

The mutation claim is about the pointer-level behavior of the source, so
here the filter is re-embedded over an explicit store: nodes are addressed
by index, and parent, sibling and child links are fields, exactly as in
the external HTML library. The rendering of a node from the store is a
parameter (it is only consulted on branches the counterexample does not
take). Recursion carries fuel; the counterexample runs with ample fuel. -/

structure GoNode where
  parent : Option Nat
  firstChild : Option Nat
  lastChild : Option Nat
  prevSibling : Option Nat
  nextSibling : Option Nat
  ntype : NodeType
  dataAtom : String
  ndata : String
  namespc : String
  attr : List Attribute
deriving DecidableEq, Repr

instance : Inhabited GoNode :=
  ⟨⟨none, none, none, none, none, .textNode, "", "", "", []⟩⟩

abbrev Store := List GoNode

def getN (st : Store) (i : Nat) : GoNode := st.getD i default

def setN (st : Store) (i : Nat) (g : GoNode) : Store := st.set i g

def allocN (st : Store) (g : GoNode) : Store × Nat := (st ++ [g], st.length)

/-- One iteration of the relink loop of cleanChildren: set the child's
Parent; the first child becomes the parent's FirstChild, later children
point back at their predecessor; the last child becomes the parent's
LastChild, earlier children point forward at their successor. -/
def relinkStep (parentId : Nat) (kids : List Nat) (len : Nat) (st : Store) (i : Nat) : Store :=
  let child := kids.getD i 0
  let st1 := setN st child { getN st child with parent := some parentId }
  let st2 :=
    if i = 0 then setN st1 parentId { getN st1 parentId with firstChild := some child }
    else setN st1 child { getN st1 child with prevSibling := some (kids.getD (i - 1) 0) }
  if i = len - 1 then setN st2 parentId { getN st2 parentId with lastChild := some child }
  else setN st2 child { getN st2 child with nextSibling := some (kids.getD (i + 1) 0) }

def relinkAll (parentId : Nat) (kids : List Nat) (st : Store) : Store :=
  (List.range kids.length).foldl (relinkStep parentId kids kids.length) st

mutual
/-- filterNode over the store: text nodes and (unescaped) comment nodes
are returned by pointer, without copying. -/
def filterNodeH (ext : Externals) (c : Config) (renderH : Store → Nat → String)
    (fuel : Nat) (st : Store) (i : Nat) : Option (Store × Nat) :=
  match fuel with
  | 0 => none
  | f + 1 =>
    if (getN st i).ntype = .textNode then some (st, i)
    else if (getN st i).ntype = .commentNode && !c.EscapeComments then some (st, i)
    else if !((getN st i).ntype = .elementNode) then
      some (allocN st { (default : GoNode) with ntype := .textNode, ndata := renderH st i })
    else cleanNodeH ext c renderH f st i
/-- cleanNode over the store: the element itself is copied (tmp := *n)
before its children are filtered and its attributes rebuilt. -/
def cleanNodeH (ext : Externals) (c : Config) (renderH : Store → Nat → String)
    (fuel : Nat) (st : Store) (i : Nat) : Option (Store × Nat) :=
  match fuel with
  | 0 => none
  | f + 1 =>
    match c.Elem (getN st i).dataAtom with
    | some allowedAttr =>
      match allocN st (getN st i) with
      | (st1, copyId) =>
        match cleanChildrenH ext c renderH f st1 copyId with
        | none => none
        | some st2 =>
          if (getN st i).dataAtom = "img"
              && !((cleanAttrList ext c (getN st i).dataAtom allowedAttr
                     (getN st2 copyId).attr).any (fun a => atomLookup a.key = "src")) then
            some (allocN (setN st2 copyId { getN st2 copyId with
              attr := cleanAttrList ext c (getN st i).dataAtom allowedAttr
                (getN st2 copyId).attr }) { (default : GoNode) with ntype := .textNode })
          else
            some (setN st2 copyId { getN st2 copyId with
              attr := cleanAttrList ext c (getN st i).dataAtom allowedAttr
                (getN st2 copyId).attr }, copyId)
    | none =>
      some (allocN st
        { (default : GoNode) with
            ntype := .textNode, ndata := ext.unescapeString (renderH st i) })
def cleanChildrenH (ext : Externals) (c : Config) (renderH : Store → Nat → String)
    (fuel : Nat) (st : Store) (parentId : Nat) : Option Store :=
  match fuel with
  | 0 => none
  | f + 1 =>
    match filterWalkH ext c renderH f st (getN st parentId).firstChild with
    | none => none
    | some (st1, kids) => some (relinkAll parentId kids st1)
/-- The collection loop of cleanChildren: filter each child in turn,
following NextSibling links as they stand after each body (filtering a
child does not alter its own sibling links). -/
def filterWalkH (ext : Externals) (c : Config) (renderH : Store → Nat → String)
    (fuel : Nat) (st : Store) (cur : Option Nat) : Option (Store × List Nat) :=
  match fuel with
  | 0 => none
  | f + 1 =>
    match cur with
    | none => some (st, [])
    | some i =>
      match filterNodeH ext c renderH f st i with
      | none => none
      | some (st1, j) =>
        match filterWalkH ext c renderH f st1 (getN st1 i).nextSibling with
        | none => none
        | some (st2, rest) => some (st2, j :: rest)
end

/-- The input heap of the mutation counterexample: a p element (node 0,
allowed by the default config) whose only child is a text node (node 1). -/
def c6store (s : String) : Store :=
  [⟨none, some 1, some 1, none, none, .elementNode, "p", "p", "", []⟩,
   ⟨some 0, none, none, none, none, .textNode, "", s, "", []⟩]

def c6run (s : String) : Option (Store × Nat) :=
  filterNodeH ext0 DefaultConfig (fun _ _ => "") 10 (c6store s) 0

/-- C6 counterexample: the Tree Filter does not leave the input tree
unchanged. Before the call the text child's Parent is node 0; the call
returns the fresh element copy (node 2) and has rewired the original text
child's Parent to point at that copy, so the caller's input tree no longer
links to its own child. -/
theorem cleanNode_mutates_input :
    (getN (c6store "hello") 1).parent = some 0 ∧
    (c6run "hello").map (fun p => (getN p.1 1).parent) = some (some 2) := by
  decide

/-- C6 amended: the filter copies each allowed element node before
modifying it — the input element's own fields are unchanged by the call
and the returned node is a fresh copy — but the call is not fully
non-mutating: pass-through text and comment descendants are shared between
input and output, and the relink loop of cleanChildren rewires their
parent and sibling links into the new tree. -/
theorem cleanNode_copies_element (s : String) :
    (c6run s).map (fun p => (getN p.1 0, p.2)) = some (getN (c6store s) 0, 2) ∧
    (getN (c6store s) 1).parent = some 0 ∧
    (c6run s).map (fun p => (getN p.1 1).parent) = some (some 2) :=
  ⟨rfl, rfl, rfl⟩
